import Mathlib

/-!
Verification of the fund-extractor repository's layout-driven extraction
engine against its natural-language specification.

The Python sources under `src/fund_extractor/` are shallowly embedded here:
pure string processing is modelled over `List Char`, Python `float` values
are modelled exactly by an inductive `PyFloat` whose finite values are
rationals (every numeric value produced by the extractor comes from a
digit/comma token, hence is an integer and is represented exactly), and
fallible parsing returns `Option`.  Regular-expression fragments from the
source (`[0-9][0-9,]*`, `\s`, `\b`, literal alternations) are modelled by
direct character scans with the same semantics on the character sets the
program manipulates; `\s`, `\w` and lower-casing are modelled on the
ASCII/Latin-1 fragment plus the common Unicode space code points.
-/

namespace FundExtractor

/-- Python's `\s` / `str.strip()` whitespace class, restricted to the ASCII
and Latin-1 whitespace plus the common Unicode space code points. -/
def isWsPy (c : Char) : Bool :=
  c = ' ' ∨ c = '\t' ∨ c = '\n' ∨ c = '\r' ∨ c = '\x0b' ∨ c = '\x0c' ∨
  c = '\x1c' ∨ c = '\x1d' ∨ c = '\x1e' ∨ c = '\x1f' ∨ c = '\x85' ∨ c = '\xa0' ∨
  c = ' ' ∨ (c.toNat ≥ 0x2000 ∧ c.toNat ≤ 0x200a) ∨ c = ' ' ∨
  c = ' ' ∨ c = ' ' ∨ c = ' ' ∨ c = '　'

/-- The regex class `[A-Z]`. -/
def isUpperAZ (c : Char) : Bool := 'A' ≤ c ∧ c ≤ 'Z'

/-- The regex class `[A-Za-z]`. -/
def isAsciiLetter (c : Char) : Bool := ('A' ≤ c ∧ c ≤ 'Z') ∨ ('a' ≤ c ∧ c ≤ 'z')

/-- The regex class `[0-9]`. -/
def isDigitC (c : Char) : Bool := '0' ≤ c ∧ c ≤ '9'

/-- The regex class `\w` (word character), on the ASCII fragment that the
embedded lines use. -/
def isWordCharPy (c : Char) : Bool := isAsciiLetter c ∨ isDigitC c ∨ c = '_'

/-- The three dash glyphs `[—\-–]` recognised by the country resolver. -/
def isDashChar (c : Char) : Bool := c = '—' ∨ c = '-' ∨ c = '–'

/-- ASCII lower-casing, as used by the case-insensitive comparisons in the
source (`str.lower()` on the header/`inf`/`nan` strings, which are ASCII). -/
def asciiLower (c : Char) : Char :=
  if 'A' ≤ c ∧ c ≤ 'Z' then Char.ofNat (c.toNat + 32) else c

/-- `n` is a prefix of `l` (Python `str.startswith`). -/
def isPrefixCl : List Char → List Char → Bool
  | [], _ => true
  | _ :: _, [] => false
  | a :: as, b :: bs => a = b ∧ isPrefixCl as bs

/-- `n` occurs as a contiguous substring of `l` (Python `in`). -/
def containsCl : List Char → List Char → Bool
  | [], n => n.isEmpty
  | l@(_ :: rest), n => isPrefixCl n l ∨ containsCl rest n

/-- Scan for the first occurrence of `n`, reporting its index (`str.find`). -/
def findSubGo (n : List Char) : Nat → List Char → Option Nat
  | i, [] => if isPrefixCl n [] then some i else none
  | i, c :: rest => if isPrefixCl n (c :: rest) then some i else findSubGo n (i + 1) rest

/-- Python `haystack.find(needle)`, with `none` for "not found". -/
def findSubIdx (hay n : List Char) : Option Nat := findSubGo n 0 hay

/-- Python `str.strip()`: drop leading and trailing whitespace. -/
def stripWs (l : List Char) : List Char :=
  ((l.dropWhile isWsPy).reverse.dropWhile isWsPy).reverse

/-- Python `str.rstrip(chars)`: drop trailing characters from `set`. -/
def rstripSet (set : List Char) (l : List Char) : List Char :=
  (l.reverse.dropWhile (fun c => set.contains c)).reverse

/-- `re.sub(r"\s+", "", line)`: remove every whitespace character. -/
def noWsL (l : List Char) : List Char := l.filter (fun c => !(isWsPy c))

/-- Python `str.replace(" ", "")`: remove the space character only. -/
def noSpaceL (l : List Char) : List Char := l.filter (fun c => !(c = ' ' : Bool))

/-- Word count of Python `str.split()` (split on whitespace runs, drop
empties); only the length is needed by the validator. -/
def wordCountGo : Bool → List Char → Nat
  | _, [] => 0
  | inWord, c :: rest =>
    if isWsPy c then wordCountGo false rest
    else (if inWord then 0 else 1) + wordCountGo true rest

/-- Number of whitespace-separated words of a string (`len(s.split())`). -/
def wordCount (l : List Char) : Nat := wordCountGo false l

/-- One scanning step of `re.finditer(r"[0-9][0-9,]*", line)`: a token is a
maximal run that starts with a digit and continues over digits and commas.
`cur` carries the start index and the reversed characters of the token being
built. -/
def tokGo : Nat → Option (Nat × List Char) → List Char → List (Nat × List Char)
  | _, cur, [] =>
    match cur with
    | some (p, acc) => [(p, acc.reverse)]
    | none => []
  | i, some (p, acc), c :: rest =>
    if isDigitC c ∨ c = ',' then tokGo (i + 1) (some (p, c :: acc)) rest
    else (p, acc.reverse) :: tokGo (i + 1) none rest
  | i, none, c :: rest =>
    if isDigitC c then tokGo (i + 1) (some (i, [c])) rest
    else tokGo (i + 1) none rest

/-- `_parse_numeric_tokens` (generic_extractor.py): all `[0-9][0-9,]*`
matches of a line with their start offsets. -/
def _parse_numeric_tokens (line : String) : List (Nat × String) :=
  (tokGo 0 none line.data).map (fun p => (p.1, String.mk p.2))

/-- Model of a CPython `float` value: finite values are kept as exact
rationals (the extractor only ever parses digit/comma tokens, whose values
are integers and hence exactly representable), plus the special values. -/
inductive PyFloat where
  | fin (q : ℚ)
  | inf
  | ninf
  | nan
deriving DecidableEq

/-- `value < 0` on floats (`nan < 0` is false in Python). -/
def pyNeg : PyFloat → Bool
  | .fin q => decide (q < 0)
  | .ninf => true
  | .inf => false
  | .nan => false

/-- `value <= 0` on floats (`nan <= 0` is false in Python). -/
def pyLe0 : PyFloat → Bool
  | .fin q => decide (q ≤ 0)
  | .ninf => true
  | .inf => false
  | .nan => false

/-- Float addition, exact on finite values (the validator only ever adds the
integral values the extractor produces, where IEEE addition is exact). -/
def pyAdd : PyFloat → PyFloat → PyFloat
  | .nan, _ => .nan
  | _, .nan => .nan
  | .inf, .ninf => .nan
  | .ninf, .inf => .nan
  | .inf, _ => .inf
  | _, .inf => .inf
  | .ninf, _ => .ninf
  | _, .ninf => .ninf
  | .fin a, .fin b => .fin (a + b)

/-- Models CPython's `str()` of a float.  Exact for integral finite values
and the special values; these are the only values rendered anywhere in this
development (every number the extractor parses comes from a digit/comma
token).  Non-integral values use a placeholder num/den rendering. -/
def pyFloatRepr : PyFloat → String
  | .inf => "inf"
  | .ninf => "-inf"
  | .nan => "nan"
  | .fin q =>
    if q.den = 1 then toString q.num ++ ".0"
    else toString q.num ++ "/" ++ toString q.den

/-- `takeWhile` over the characters a Python float digit-part may contain
(digits and grouping underscores). -/
def takeDigitUnd (l : List Char) : List Char :=
  l.takeWhile (fun c => isDigitC c ∨ c = '_')

/-- Tail of a valid float digit-part after its first digit: a sequence of
digits in which each underscore is followed by a digit. -/
def digitTailOk : List Char → Bool
  | [] => true
  | c :: rest =>
    if c = '_' then
      match rest with
      | [] => false
      | d :: rest2 => isDigitC d ∧ digitTailOk rest2
    else isDigitC c ∧ digitTailOk rest

/-- A valid Python float digit-part: `digit (["_"] digit)*`. -/
def validDigitPart : List Char → Bool
  | [] => false
  | c :: rest => isDigitC c ∧ digitTailOk rest

/-- Numeric value of a digit string. -/
def digitsToNat (l : List Char) : Nat :=
  l.foldl (fun a c => 10 * a + (c.toNat - 48)) 0

/-- Exact value of a parsed float, `(ip + fp / 10^|fp|) * 10^e`: integer
digits `ip`, fraction digits `fp`, decimal exponent `e` (grouping
underscores ignored).  Assembled with `mkRat` over the mantissa so that the
value is a closed rational. -/
def ratValOf (ip fp : List Char) (e : Int) : ℚ :=
  let ipd := ip.filter (fun c => !(c = '_' : Bool))
  let fpd := fp.filter (fun c => !(c = '_' : Bool))
  let mant : Nat := digitsToNat ipd * Nat.pow 10 fpd.length + digitsToNat fpd
  if 0 ≤ e then
    mkRat (Int.ofNat (mant * Nat.pow 10 e.toNat)) (Nat.pow 10 fpd.length)
  else
    mkRat (Int.ofNat mant) (Nat.pow 10 fpd.length * Nat.pow 10 (-e).toNat)

/-- Exponent digit run: must cover the whole remaining input. -/
def expDigits (l : List Char) (neg : Bool) : Option Int :=
  if l ≠ [] ∧ validDigitPart l then
    let n : Int := digitsToNat (l.filter (fun c => !(c = '_' : Bool)))
    some (if neg then -n else n)
  else none

/-- Optional exponent suffix `("e"|"E") ["+"|"-"] digitpart` of a Python
float literal; `some 0` on empty input (no exponent present). -/
def parseExpPart : List Char → Option Int
  | [] => some 0
  | c :: rest =>
    if c = 'e' ∨ c = 'E' then
      match rest with
      | [] => none
      | d :: r2 =>
        if d = '+' then expDigits r2 false
        else if d = '-' then expDigits r2 true
        else expDigits (d :: r2) false
    else none

/-- The number form of Python's `float()` grammar (sign already removed):
`(digitpart ["." [digitpart]] | "." digitpart) [exponent]`, consuming the
entire input. -/
def parsePyNumber (l : List Char) : Option ℚ :=
  let ip := takeDigitUnd l
  let rest1 := l.drop ip.length
  match rest1 with
  | c :: r2 =>
    if c = '.' then
      let fp := takeDigitUnd r2
      let rest2 := r2.drop fp.length
      if ip = [] ∧ fp = [] then none
      else if (ip ≠ [] ∧ validDigitPart ip = false) ∨
              (fp ≠ [] ∧ validDigitPart fp = false) then none
      else
        match parseExpPart rest2 with
        | some e => some (ratValOf ip fp e)
        | none => none
    else
      if ip = [] ∨ validDigitPart ip = false then none
      else
        match parseExpPart rest1 with
        | some e => some (ratValOf ip [] e)
        | none => none
  | [] =>
    if ip = [] ∨ validDigitPart ip = false then none
    else
      match parseExpPart [] with
      | some e => some (ratValOf ip [] e)
      | none => none

/-- Sign-stripped body of `float()`: the named specials (case-insensitive)
or a number. -/
def parseFloatBody (l : List Char) (neg : Bool) : Option PyFloat :=
  let low := l.map asciiLower
  if low = "inf".data ∨ low = "infinity".data then
    some (if neg then .ninf else .inf)
  else if low = "nan".data then some .nan
  else
    match parsePyNumber l with
    | some q => some (.fin (if neg then -q else q))
    | none => none

/-- CPython `float(str)`: strip whitespace, optional sign, then the named
specials or a decimal/scientific numeral; `none` models `ValueError`. -/
def pyFloatOfChars (l0 : List Char) : Option PyFloat :=
  match stripWs l0 with
  | [] => none
  | c :: rest =>
    if c = '+' then parseFloatBody rest false
    else if c = '-' then parseFloatBody rest true
    else parseFloatBody (c :: rest) false

/-- The cleaning pipeline of `_parse_number`: drop commas and dollar signs,
strip whitespace, then drop footnote glyphs (`\*+|†|‡`). -/
def cleanNumeric (s : String) : List Char :=
  (stripWs ((s.data.filter (fun c => !(c = ',' : Bool))).filter
      (fun c => !(c = '$' : Bool)))).filter
    (fun c => !(c = '*' ∨ c = '†' ∨ c = '‡' : Bool))

/-- `_parse_number` (generic_extractor.py): clean, treat empty and the
dash/em-dash sentinels as "no value", else `float()` with `ValueError`
mapped to "no value". -/
def _parse_number (s : String) : Option PyFloat :=
  let c := cleanNumeric s
  if c = [] ∨ c = ['-'] ∨ c = ['—'] then none
  else pyFloatOfChars c

/-- The boundary of `re.sub(r"(?<=[^\sA-Z,])(?=[A-Z])", " ", name)`: the
previous character is not whitespace, not `A-Z` and not a comma, and the
next character is `A-Z`. -/
def capBoundary (a b : Char) : Bool :=
  !(isWsPy a) && !(isUpperAZ a) && !(a == ',') && isUpperAZ b

/-- Insert a single space at every `capBoundary` (first substitution of
`_normalize_name`). -/
def insertCaps : List Char → List Char
  | [] => []
  | [c] => [c]
  | a :: b :: rest =>
    if capBoundary a b then a :: ' ' :: insertCaps (b :: rest)
    else a :: insertCaps (b :: rest)

/-- The boundary of `re.sub(r",(?=[A-Za-z])", ", ", name)`: a comma
immediately followed by an ASCII letter. -/
def commaBoundary (a b : Char) : Bool := (a == ',') && isAsciiLetter b

/-- `re.sub(r",(?=[A-Za-z])", ", ", name)`: space after a comma that is
immediately followed by an ASCII letter (the matched comma `a` is replaced
by `", "`). -/
def commaSpace : List Char → List Char
  | [] => []
  | [c] => [c]
  | a :: b :: rest =>
    if commaBoundary a b then a :: ' ' :: commaSpace (b :: rest)
    else a :: commaSpace (b :: rest)

/-- Two adjacent whitespace characters (the inside of a `\s{2,}` run). -/
def wsPair (a b : Char) : Bool := isWsPy a && isWsPy b

/-- `re.sub(r"\s{2,}", " ", name)` with explicit fuel (the list length):
every maximal whitespace run of length at least two becomes one space; a
lone whitespace character is untouched. -/
def collapseWsGo : Nat → List Char → List Char
  | 0, l => l
  | _ + 1, [] => []
  | _ + 1, [c] => [c]
  | fuel + 1, a :: b :: rest =>
    if wsPair a b then collapseWsGo fuel (' ' :: rest)
    else a :: collapseWsGo fuel (b :: rest)

/-- Collapse whitespace runs of length at least two to a single space. -/
def collapseWs (l : List Char) : List Char := collapseWsGo l.length l

/-- `_normalize_name` (generic_extractor.py): insert spaces before capitals,
space after commas, collapse runs of whitespace, strip. -/
def _normalize_name (name : String) : String :=
  String.mk (stripWs (collapseWs (commaSpace (insertCaps name.data))))

/-- The Name Normalizer as the specification words it: its first rule
inserts a space at every boundary where a non-space, non-uppercase character
(the comma not excluded) precedes an uppercase character. -/
def specCapBoundary (a b : Char) : Bool :=
  !(isWsPy a) && !(isUpperAZ a) && isUpperAZ b

/-- First rule of the specification's Name Normalizer. -/
def specInsertCaps : List Char → List Char
  | [] => []
  | [c] => [c]
  | a :: b :: rest =>
    if specCapBoundary a b then a :: ' ' :: specInsertCaps (b :: rest)
    else a :: specInsertCaps (b :: rest)

/-- The Name Normalizer exactly as § 4.5 of the specification states it
(used to compare with the implementation's `_normalize_name`). -/
def spec_normalize_name (name : String) : String :=
  String.mk (stripWs (collapseWs (commaSpace (specInsertCaps name.data))))

/-- `COUNTRY_TO_ISO3` (country_codes.py), in Python dict insertion order.
The source dict literal repeats the keys "Peru" and "Egypt" with identical
values; a Python dict keeps the first position (and here the same value), so
the table lists each key once at its first occurrence. -/
def COUNTRY_TO_ISO3 : List (String × String) :=
  [("Canada", "CAN"), ("Sweden", "SWE"), ("Switzerland", "CHE"),
   ("China", "CHN"), ("Taiwan", "TWN"), ("Denmark", "DNK"),
   ("France", "FRA"), ("Germany", "DEU"), ("India", "IND"),
   ("Italy", "ITA"), ("Japan", "JPN"), ("Netherlands", "NLD"),
   ("Norway", "NOR"), ("Finland", "FIN"), ("Belgium", "BEL"),
   ("Austria", "AUT"), ("Ireland", "IRL"), ("Portugal", "PRT"),
   ("Poland", "POL"), ("Czech Republic", "CZE"), ("Hungary", "HUN"),
   ("Singapore", "SGP"), ("South Korea", "KOR"), ("Spain", "ESP"),
   ("United Kingdom", "GBR"), ("United States", "USA"),
   ("Australia", "AUS"), ("New Zealand", "NZL"), ("Brazil", "BRA"),
   ("Mexico", "MEX"), ("Argentina", "ARG"), ("Chile", "CHL"),
   ("Colombia", "COL"), ("Peru", "PER"), ("Uruguay", "URY"),
   ("Philippines", "PHL"), ("Indonesia", "IDN"), ("Malaysia", "MYS"),
   ("Thailand", "THA"), ("Vietnam", "VNM"), ("Pakistan", "PAK"),
   ("Bangladesh", "BGD"), ("Turkey", "TUR"), ("Israel", "ISR"),
   ("Romania", "ROU"), ("Saudi Arabia", "SAU"),
   ("United Arab Emirates", "ARE"), ("Qatar", "QAT"), ("Kuwait", "KWT"),
   ("Bahrain", "BHR"), ("South Africa", "ZAF"), ("Egypt", "EGY"),
   ("Nigeria", "NGA"), ("Kenya", "KEN"), ("Morocco", "MAR"),
   ("Russia", "RUS"), ("Ukraine", "UKR"), ("Greece", "GRC"),
   ("Hong Kong", "HKG"), ("Slovenia", "SVN")]

/-- After an occurrence of the country name, `\s*[—\-–]` must follow: skip
whitespace, then one of the three dash glyphs. -/
def dashAfterWs (l : List Char) : Bool :=
  match l.dropWhile isWsPy with
  | c :: _ => isDashChar c
  | [] => false

/-- The pattern `name\s*[—\-–]` (with `\b` on both sides of `name` when
`useB` is set) matches at the current position: `prev` is the character just
before the position (`none` at the start of the string). -/
def matchCountryAt (name rest : List Char) (prev : Option Char) (useB : Bool) : Bool :=
  (if useB then
     match prev with
     | none => true
     | some c => !(isWordCharPy c)
   else true) ∧
  isPrefixCl name rest ∧
  (let after := rest.drop name.length
   (if useB then
      match after.head? with
      | none => true
      | some c => !(isWordCharPy c)
    else true) ∧
   dashAfterWs after)

/-- `re.search` of the country pattern: try every start position. -/
def searchCountry (name : List Char) (useB : Bool) : Option Char → List Char → Bool
  | prev, [] => matchCountryAt name [] prev useB
  | prev, c :: rest =>
    matchCountryAt name (c :: rest) prev useB ∨ searchCountry name useB (some c) rest

/-- One entry test of `country_heading_to_iso3`: the name with `\b` word
boundaries against the raw heading, or the space-stripped name (no
boundaries) against the space-stripped heading. -/
def countryEntryMatches (name : String) (heading : List Char) : Bool :=
  searchCountry name.data true none heading ∨
  searchCountry (noSpaceL name.data) false none (noSpaceL heading)

/-- First matching table entry wins (Python iterates the dict in insertion
order and returns inside the loop). -/
def lookupCountry : List (String × String) → List Char → Option String
  | [], _ => none
  | (n, iso) :: rest, heading =>
    if countryEntryMatches n heading then some iso else lookupCountry rest heading

/-- `country_heading_to_iso3` (country_codes.py). -/
def country_heading_to_iso3 (heading : String) : Option String :=
  lookupCountry COUNTRY_TO_ISO3 heading.data

/-- `_contains_normalized` (generic_extractor.py): substring test after
removing all whitespace and lower-casing both sides; empty haystack or
needle is `False`. -/
def _contains_normalized (haystack needle : String) : Bool :=
  if haystack.data = [] ∨ needle.data = [] then false
  else containsCl ((noWsL haystack.data).map asciiLower)
    ((noWsL needle.data).map asciiLower)

/-- `Holding` (models.py): one output row. -/
structure Holding where
  fund_name : String
  report_date : String
  security_name : String
  security_type : Option String
  country_iso3 : Option String
  sector : Option String
  shares : Option PyFloat
  principal : Option PyFloat
  market_value : Option PyFloat
deriving DecidableEq

/-- `LayoutConfig` (layout_config.py).  `instrument_headers` keeps the
Python dict's insertion order as a pair list; the token indices are the
non-negative ordinals the configs use. -/
structure LayoutConfig where
  id : String
  fund_name_patterns : List String
  schedule_header : String
  layout_type : String
  columns : Nat
  shares_token_index : Nat
  value_token_index : Nat
  instrument_headers : List (String × String)
  stop_line_prefixes : List String
  stop_line_contains : List String
  noise_prefixes : List String

/-- One stop/noise entry test: `line.startswith(p)` or the whitespace-
stripped line starts with the whitespace-stripped entry. -/
def pfxMatches (line lineNoSp : List Char) (p : String) : Bool :=
  isPrefixCl p.data line ∨ isPrefixCl (noWsL p.data) lineNoSp

/-- The stop condition of both assembler modes: a configured stop prefix
(as-is or whitespace-stripped) or a configured stop substring. -/
def isStopLine (cfg : LayoutConfig) (line : List Char) : Bool :=
  cfg.stop_line_prefixes.any (pfxMatches line (noWsL line)) ∨
  cfg.stop_line_contains.any (fun s => containsCl line s.data)

/-- The noise-line test: a configured noise prefix, as-is or whitespace-
stripped. -/
def isNoiseLine (cfg : LayoutConfig) (line : List Char) : Bool :=
  cfg.noise_prefixes.any (pfxMatches line (noWsL line))

/-- Instrument-header scan: the first configured prefix that matches the
line updates `current_security_type`; otherwise it is unchanged. -/
def headerUpdate (headers : List (String × String)) (line : List Char)
    (cur : Option String) : Option String :=
  match headers.find? (fun p => isPrefixCl p.1.data line) with
  | some (_, t) => some t
  | none => cur

/-- Result of classifying one line in single-line mode: `halt` breaks out of
the column scan; `next` carries the updated security type and country and
the holding emitted by the line, if any. -/
inductive SLStepRes where
  | halt : SLStepRes
  | next (secType country : Option String) (emitted : Option Holding) : SLStepRes
deriving DecidableEq

/-- The holding a single classification step emits. -/
def slEmitted : SLStepRes → Option Holding
  | .halt => none
  | .next _ _ e => e

/-- `line[:name_end].rstrip(". ").strip()` of the single-line branch. -/
def slNameSlice (line : List Char) (nameEnd : Nat) : List Char :=
  stripWs (rstripSet ['.', ' '] (line.take nameEnd))

/-- One line of the single-line assembler (the `else` branch of
`extract_with_layout`, lines 305-376): strip, stop check, instrument
headers, country heading, noise, no-letters, token-count requirement, then
token extraction and name slicing. -/
def slStep (cfg : LayoutConfig) (fund date : String)
    (secType country : Option String) (rawLine : String) : SLStepRes :=
  let line := stripWs rawLine.data
  if line = [] then .next secType country none
  else if isStopLine cfg line then .halt
  else
    let ty := headerUpdate cfg.instrument_headers line secType
    match country_heading_to_iso3 (String.mk line) with
    | some iso => .next ty (some iso) none
    | none =>
      if isNoiseLine cfg line then .next ty country none
      else if !(line.any isAsciiLetter) then .next ty country none
      else
        let toks := _parse_numeric_tokens (String.mk line)
        if toks.length ≤ max cfg.shares_token_index cfg.value_token_index then
          .next ty country none
        else
          let (sIdx, sTok) := toks.getD cfg.shares_token_index (0, "")
          let (_, vTok) := toks.getD cfg.value_token_index (0, "")
          let name := _normalize_name (String.mk (slNameSlice line sIdx))
          if name = "" then .next ty country none
          else
            .next ty country (some
              { fund_name := fund, report_date := date, security_name := name,
                security_type := ty, country_iso3 := country, sector := none,
                shares := _parse_number sTok, principal := none,
                market_value := _parse_number vTok })

/-- The single-line column scan: classify each line in order; `halt` ends
the column, returning the holdings collected so far and the security type
(which persists to the next column). -/
def slLoop (cfg : LayoutConfig) (fund date : String) :
    Option String → Option String → List String → List Holding × Option String
  | secType, _, [] => ([], secType)
  | secType, country, l :: rest =>
    match slStep cfg fund date secType country l with
    | .halt => ([], secType)
    | .next ty co em =>
      let r := slLoop cfg fund date ty co rest
      (em.toList ++ r.1, r.2)

/-- Transient state of the multi-line ("two_column_multiline_shares_first")
assembler: the persisting security type, the per-column country, and the
pending-record buffers of the closure in `extract_with_layout`. -/
structure MLState where
  secType : Option String
  country : Option String
  pendingNameParts : List String
  pendingShares : Option PyFloat
  pendingValue : Option PyFloat
  pendingCountry : Option String
deriving DecidableEq

/-- `TRIM_PATTERNS` (generic_extractor.py, multi-line branch). -/
def TRIM_PATTERNS : List String :=
  ["( Cost", "Cost$", "Shares Dividend Rate", "Investment Company"]

/-- Truncate the name at the first occurrence of each boilerplate pattern in
turn (`name = name[:idx].rstrip()` per pattern, applied sequentially). -/
def trimAtPatterns (name : List Char) : List Char :=
  TRIM_PATTERNS.foldl
    (fun acc pat =>
      match findSubIdx acc pat.data with
      | some i => (acc.take i).reverse.dropWhile isWsPy |>.reverse
      | none => acc)
    name

/-- `finalize_pending` (generic_extractor.py, lines 185-211): convert the
pending buffers into a Holding only when shares, value and at least one name
fragment are present; normalize and trim the joined name; suppress names
without letters.  The pending buffers themselves are not reset. -/
def finalize_pending (fund date : String) (st : MLState) : Option Holding :=
  if st.pendingShares = none ∨ st.pendingValue = none ∨ st.pendingNameParts = [] then
    none
  else
    let name0 := _normalize_name (String.intercalate " " st.pendingNameParts)
    let name1 := String.mk (trimAtPatterns name0.data)
    if !(name1.data.any isAsciiLetter) then none
    else if name1 = "" then none
    else
      some { fund_name := fund, report_date := date, security_name := name1,
             security_type := st.secType, country_iso3 := st.pendingCountry,
             sector := none, shares := st.pendingShares, principal := none,
             market_value := st.pendingValue }

/-- `re.match(r"^([0-9][0-9,]*)\s+(.*)$", line)`: the leading digit/comma
run and the remainder after the whitespace that follows it. -/
def matchSharesStart (l : List Char) : Option (List Char × List Char) :=
  match l with
  | [] => none
  | c :: rest =>
    if isDigitC c then
      let run := rest.takeWhile (fun x => isDigitC x ∨ x = ',')
      let after := rest.drop run.length
      match after with
      | [] => none
      | w :: _ =>
        if isWsPy w then some (c :: run, after.dropWhile isWsPy) else none
    else none

/-- `line[:val_pos].rstrip("$ ").strip()` of the multi-line branches. -/
def mlDescSlice (l : List Char) (pos : Nat) : List Char :=
  stripWs (rstripSet ['$', ' '] (l.take pos))

/-- Append a description fragment when it is non-empty (`if desc:`). -/
def appendDesc (parts : List String) (desc : List Char) : List String :=
  if desc = [] then parts else parts ++ [String.mk desc]

/-- The multi-line column scan (generic_extractor.py, lines 213-301): in
order, the hardcoded section-header break, the stop condition (both finalize
the pending record and break), instrument headers, country headings, noise
lines, non-alphanumeric lines, new-record lines starting with a digit run,
and continuation lines.  Returns the holdings the loop emitted and the state
at exit (the caller finalizes once more, line 303). -/
def mlLoop (cfg : LayoutConfig) (fund date : String) :
    MLState → List String → List Holding × MLState
  | st, [] => ([], st)
  | st, rawLine :: rest =>
    let line := stripWs rawLine.data
    if line = [] then mlLoop cfg fund date st rest
    else if containsCl line "Investment Company".data ∨
            containsCl line "Shares Dividend Rate".data then
      ((finalize_pending fund date st).toList, st)
    else if isStopLine cfg line then
      ((finalize_pending fund date st).toList, st)
    else
      let st1 := { st with secType := headerUpdate cfg.instrument_headers line st.secType }
      match country_heading_to_iso3 (String.mk line) with
      | some iso => mlLoop cfg fund date { st1 with country := some iso } rest
      | none =>
        if isNoiseLine cfg line then mlLoop cfg fund date st1 rest
        else if !(line.any (fun c => isAsciiLetter c ∨ isDigitC c)) then
          mlLoop cfg fund date st1 rest
        else
          match matchSharesStart line with
          | some (runTok, remainder) =>
            let prior := (finalize_pending fund date st1).toList
            let toks := tokGo 0 none remainder
            let vd :=
              match toks.getLast? with
              | some (p, t) => (_parse_number (String.mk t), mlDescSlice remainder p)
              | none => ((none : Option PyFloat), remainder)
            let st2 := { st1 with
              pendingNameParts := appendDesc [] vd.2,
              pendingShares := _parse_number (String.mk runTok),
              pendingValue := vd.1,
              pendingCountry := st1.country }
            let r := mlLoop cfg fund date st2 rest
            (prior ++ r.1, r.2)
          | none =>
            if st1.pendingShares = none then mlLoop cfg fund date st1 rest
            else
              let toks := tokGo 0 none line
              let st2 :=
                match toks.getLast? with
                | some (p, t) => { st1 with
                    pendingValue := _parse_number (String.mk t),
                    pendingNameParts := appendDesc st1.pendingNameParts (mlDescSlice line p) }
                | none => { st1 with
                    pendingNameParts := appendDesc st1.pendingNameParts line }
              mlLoop cfg fund date st2 rest

/-- A whole multi-line column: run the loop from a fresh pending buffer and
the column-initial country, then finalize once more at column end (line 303
runs after the loop whether or not it broke early). -/
def mlColumn (cfg : LayoutConfig) (fund date : String) (secType : Option String)
    (lines : List String) : List Holding × Option String :=
  let st0 : MLState :=
    { secType := secType, country := none, pendingNameParts := [],
      pendingShares := none, pendingValue := none, pendingCountry := none }
  let r := mlLoop cfg fund date st0 lines
  (r.1 ++ (finalize_pending fund date r.2).toList, r.2.secType)

/-- The set of known ISO3 codes (`set(COUNTRY_TO_ISO3.values())`); list
membership models set membership. -/
def validIso3 : List String := COUNTRY_TO_ISO3.map Prod.snd

/-- The `f"[row {idx}]"` context of a validator finding. -/
def rowCtx (idx : Nat) : String := "[row " ++ toString idx ++ "]"

/-- The error text for a negative numeric field, naming the field and
rendering the offending value. -/
def negMsg (ctx fieldLabel : String) (v : PyFloat) : String :=
  ctx ++ " " ++ fieldLabel ++ " is negative (" ++ pyFloatRepr v ++
    "); long-only mutual funds should not have negative amounts."

/-- The negative-value check of one numeric field of one row. -/
def negFieldErr (ctx fieldLabel : String) : Option PyFloat → List String
  | some v => if pyNeg v then [negMsg ctx fieldLabel v] else []
  | none => []

/-- The errors one row contributes, in the order `validate_holdings` appends
them: empty fund name, empty security name, then the negative checks for
shares, principal and market value. -/
def rowErrors (idx : Nat) (h : Holding) : List String :=
  let ctx := rowCtx idx
  (if h.fund_name = "" then [ctx ++ " fund_name is empty."] else []) ++
  (if h.security_name = "" then [ctx ++ " security_name is empty."] else []) ++
  negFieldErr ctx "shares" h.shares ++
  negFieldErr ctx "principal" h.principal ++
  negFieldErr ctx "market_value" h.market_value

/-- The warnings one row contributes, in order: empty report date, no
numeric field present, unknown ISO3 code, suspiciously short name. -/
def rowWarnings (idx : Nat) (h : Holding) : List String :=
  let ctx := rowCtx idx
  (if h.report_date = "" then [ctx ++ " report_date is empty."] else []) ++
  (if h.shares = none ∧ h.principal = none ∧ h.market_value = none then
     [ctx ++ " no numeric value present (shares, principal, or market_value)."]
   else []) ++
  (match h.country_iso3 with
   | some c =>
     if validIso3.contains c then []
     else [ctx ++ " country_iso3 '" ++ c ++ "' is not in the known ISO3 list."]
   | none => []) ++
  (if h.security_name ≠ "" ∧ wordCount h.security_name.data < 2 then
     [ctx ++ " security_name '" ++ h.security_name ++ "' has suspiciously few words."]
   else [])

/-- `total_market_value`: sum of the present market values, starting at 0.0. -/
def totalMarketValue (hs : List Holding) : PyFloat :=
  hs.foldl
    (fun acc h =>
      match h.market_value with
      | some v => pyAdd acc v
      | none => acc)
    (.fin 0)

/-- `validate_holdings` (validator.py): an empty input short-circuits to the
single error; otherwise per-row findings in row order followed by the
aggregate non-positive-total warning.  Result is (errors, warnings). -/
def validate_holdings (hs : List Holding) : List String × List String :=
  if hs = [] then (["No holdings extracted."], [])
  else
    ((hs.enum.map (fun p => rowErrors p.1 p.2)).flatten,
     (hs.enum.map (fun p => rowWarnings p.1 p.2)).flatten ++
       (if pyLe0 (totalMarketValue hs) then
          ["Total market_value across all holdings is non-positive; this is suspicious for a typical mutual fund."]
        else []))

/-! ## Claim C1: end-to-end single-line scenario -/

/-- The one-column single-line layout of the C1 scenario: token ordinals 0
and 1, the schedule header, and "TOTAL INVESTMENTS" as a stop substring. -/
def cfgC1 : LayoutConfig :=
  { id := "c1", fund_name_patterns := [], schedule_header := "Schedule of Investments",
    layout_type := "one_column_line_numeric", columns := 1,
    shares_token_index := 0, value_token_index := 1,
    instrument_headers := [], stop_line_prefixes := [],
    stop_line_contains := ["TOTAL INVESTMENTS"], noise_prefixes := [] }

/-- The column text of the C1 scenario, line by line. -/
def c1Lines : List String :=
  ["Schedule of Investments", "Canada—6.5%", "Acme Corp 100 1,234", "TOTAL INVESTMENTS"]

/-- The single holding the C1 scenario must produce. -/
def acmeHolding (fund date : String) : Holding :=
  { fund_name := fund, report_date := date, security_name := "Acme Corp",
    security_type := none, country_iso3 := some "CAN", sector := none,
    shares := some (.fin 100), principal := none, market_value := some (.fin 1234) }

/-- C1: on a selected page (its text contains the schedule header in the
normalized sense used for page selection) whose column text is the four
scenario lines followed by any further lines, the single-line scan yields
exactly one Holding — "Acme Corp", CAN, shares 100.0, market value 1234.0 —
and the lines after "TOTAL INVESTMENTS" are never examined: the result does
not depend on them. -/
theorem c1_end_to_end (fund date : String) (rest : List String) :
    slLoop cfgC1 fund date none none (c1Lines ++ rest) = ([acmeHolding fund date], none) ∧
    _contains_normalized (String.intercalate "\n" c1Lines) cfgC1.schedule_header = true := by
  constructor
  · have h1 : slStep cfgC1 fund date none none "Schedule of Investments" = .next none none none := rfl
    have h2 : slStep cfgC1 fund date none none "Canada—6.5%" = .next none (some "CAN") none := rfl
    have h3 : slStep cfgC1 fund date none (some "CAN") "Acme Corp 100 1,234" = .next none (some "CAN") (some (acmeHolding fund date)) := rfl
    have h4 : slStep cfgC1 fund date none (some "CAN") "TOTAL INVESTMENTS" = .halt := rfl
    simp [c1Lines, slLoop, h1, h2, h3, h4]
  · decide

/-- Witness for C1 at concrete inputs, including a line after the stop line
that must not affect the result. -/
theorem c1_end_to_end_witness :
    slLoop cfgC1 "Fund" "2024-12-31" none none (c1Lines ++ ["Ghost Corp 7 8"]) =
      ([acmeHolding "Fund" "2024-12-31"], none) :=
  (c1_end_to_end "Fund" "2024-12-31" ["Ghost Corp 7 8"]).1

/-! ## Claim C5: country resolution -/

/-- C5: "Canada—6.5%" resolves to CAN, the spaceless "UnitedKingdom—15.7%"
resolves to GBR, and for every heading the lookup returns the first entry in
table declaration order whose pattern matches (`find?` semantics). -/
theorem c5_country_resolution :
    country_heading_to_iso3 "Canada—6.5%" = some "CAN" ∧
    country_heading_to_iso3 "UnitedKingdom—15.7%" = some "GBR" ∧
    ∀ (tbl : List (String × String)) (heading : List Char),
      lookupCountry tbl heading =
        (tbl.find? (fun p => countryEntryMatches p.1 heading)).map Prod.snd := by
  refine ⟨by decide, by decide, ?_⟩
  intro tbl heading
  induction tbl with
  | nil => rfl
  | cons p rest ih =>
    obtain ⟨n, iso⟩ := p
    by_cases h : countryEntryMatches n heading
    · simp [lookupCountry, List.find?, h]
    · simp [lookupCountry, List.find?, h, ih]

/-- Witness for C5: the first-match rule applied to a concrete two-entry
table whose entries both match the heading. -/
theorem c5_country_resolution_witness :
    lookupCountry [("Canada", "CAN"), ("Can", "XXX")] "Canada—6.5%".data =
      (([("Canada", "CAN"), ("Can", "XXX")].find?
          (fun p => countryEntryMatches p.1 "Canada—6.5%".data)).map Prod.snd) :=
  c5_country_resolution.2.2 [("Canada", "CAN"), ("Can", "XXX")] "Canada—6.5%".data

/-! ## Claim C6: Name Normalizer round-trip -/

/-- C6: the implementation and the specification's four-step procedure (its
first rule stated without the comma exclusion) both send
"AssaAbloyAB,ClassB" to "Assa Abloy AB, Class B". -/
theorem c6_normalize_round_trip :
    _normalize_name "AssaAbloyAB,ClassB" = "Assa Abloy AB, Class B" ∧
    spec_normalize_name "AssaAbloyAB,ClassB" = "Assa Abloy AB, Class B" := by
  decide

/-! ## Claim C8: validator empty-input short-circuit -/

/-- C8: validating an empty holding sequence returns exactly the single
error "No holdings extracted." and no warnings — in particular the
aggregate non-positive-total warning (which would fire on a zero total) is
absent, showing the per-row and aggregate checks never ran. -/
theorem c8_validator_empty :
    validate_holdings [] = (["No holdings extracted."], []) := by
  decide

/-! ## Claim C2: per-line classification order -/

/-- A layout whose instrument header "Common Stocks" is also caught by the
stop prefix "Common": the claim predicts the header updates
`current_security_type` before the stop terminates the column. -/
def cfgC2 : LayoutConfig :=
  { id := "c2", fund_name_patterns := [], schedule_header := "Schedule of Investments",
    layout_type := "one_column_line_numeric", columns := 1,
    shares_token_index := 0, value_token_index := 1,
    instrument_headers := [("Common Stocks", "Common Stock")],
    stop_line_prefixes := ["Common"], stop_line_contains := [],
    noise_prefixes := [] }

/-- C2 counterexample: the line "Common Stocks" starts with the configured
instrument-header prefix "Common Stocks" and satisfies the stop condition
(prefix "Common"), yet the scan ends with `current_security_type` still
`none`, not "Common Stock" — the code checks the stop condition before the
instrument headers, not after as the claim orders the checks. -/
theorem c2_order_counterexample :
    (slLoop cfgC2 "F" "D" none none ["Common Stocks"]).2 = none ∧
    (slLoop cfgC2 "F" "D" none none ["Common Stocks"]).2 ≠ some "Common Stock" := by
  decide

/-- C2 amended: in both assembler modes the stop condition is checked before
the instrument-header, country, noise and non-data checks; a non-empty line
satisfying a stop condition terminates the column at once — no later line is
examined and `current_security_type` is left unchanged (so a line that also
starts with an instrument-header prefix does not update it) — and in
multi-line mode the pending record is first finalized. -/
theorem c2_stop_precedes_headers :
    (∀ (cfg : LayoutConfig) (fund date : String) (ty co : Option String)
       (line : String) (rest : List String),
       stripWs line.data ≠ [] → isStopLine cfg (stripWs line.data) = true →
       slLoop cfg fund date ty co (line :: rest) = ([], ty)) ∧
    (∀ (cfg : LayoutConfig) (fund date : String) (st : MLState)
       (line : String) (rest : List String),
       stripWs line.data ≠ [] → isStopLine cfg (stripWs line.data) = true →
       mlLoop cfg fund date st (line :: rest) =
         ((finalize_pending fund date st).toList, st)) := by
  constructor
  · intro cfg fund date ty co line rest hne hstop
    have hstep : slStep cfg fund date ty co line = .halt := by
      simp [slStep, hne, hstop]
    simp [slLoop, hstep]
  · intro cfg fund date st line rest hne hstop
    by_cases hic : (containsCl (stripWs line.data) "Investment Company".data = true ∨
        containsCl (stripWs line.data) "Shares Dividend Rate".data = true)
    · simp [mlLoop, hne, hic]
    · simp [mlLoop, hne, hic, hstop]

/-- Witness for C2's amended ordering statement, in both modes, on the
configuration and line of the counterexample. -/
theorem c2_stop_precedes_headers_witness :
    slLoop cfgC2 "F" "D" none none ["Common Stocks", "Acme Corp 1 2"] = ([], none) ∧
    mlLoop cfgC2 "F" "D"
      { secType := none, country := none, pendingNameParts := ["Acme"],
        pendingShares := some (.fin 5), pendingValue := some (.fin 7),
        pendingCountry := none }
      ["Common Stocks", "1,000 Acme 2,000"] =
      ([{ fund_name := "F", report_date := "D", security_name := "Acme",
          security_type := none, country_iso3 := none, sector := none,
          shares := some (.fin 5), principal := none, market_value := some (.fin 7) }],
        { secType := none, country := none, pendingNameParts := ["Acme"],
          pendingShares := some (.fin 5), pendingValue := some (.fin 7),
          pendingCountry := none }) := by
  constructor
  · exact c2_stop_precedes_headers.1 cfgC2 "F" "D" none none "Common Stocks"
      ["Acme Corp 1 2"] (by decide) (by decide)
  · rw [c2_stop_precedes_headers.2 cfgC2 "F" "D" _ "Common Stocks"
      ["1,000 Acme 2,000"] (by decide) (by decide)]
    decide

/-! ## Claim C3: multi-line finalize precondition -/

/-- C3: `finalize_pending` emits no record whenever `pending_shares` or
`pending_value` is absent or no name fragment was accumulated — for every
assembler state, reachable or not — and conversely a state from which it
does emit a record has both values present and a non-empty fragment list.
Every multi-line finalize point (column end, new-record start, stop
condition, section-header break) emits through this function. -/
theorem c3_finalize_requires_values :
    (∀ (fund date : String) (st : MLState),
       st.pendingShares = none ∨ st.pendingValue = none ∨ st.pendingNameParts = [] →
       finalize_pending fund date st = none) ∧
    (∀ (fund date : String) (st : MLState) (h : Holding),
       finalize_pending fund date st = some h →
       st.pendingShares ≠ none ∧ st.pendingValue ≠ none ∧ st.pendingNameParts ≠ []) := by
  constructor
  · intro fund date st hcond
    simp only [finalize_pending, if_pos hcond]
  · intro fund date st h hsome
    by_cases hcond : st.pendingShares = none ∨ st.pendingValue = none ∨ st.pendingNameParts = []
    · rw [finalize_pending, if_pos hcond] at hsome
      exact absurd hsome (by simp)
    · push_neg at hcond
      exact hcond

/-- Witness for C3: a state with a non-empty name fragment but no pending
value yields no record, and a state that does yield a record has all three
components present. -/
theorem c3_finalize_requires_values_witness :
    finalize_pending "F" "D"
      { secType := none, country := none, pendingNameParts := ["Acme"],
        pendingShares := some (.fin 5), pendingValue := none, pendingCountry := none } = none ∧
    ((some (.fin 5) : Option PyFloat) ≠ none ∧ (some (.fin 7) : Option PyFloat) ≠ none ∧
      (["Acme"] : List String) ≠ []) := by
  constructor
  · exact c3_finalize_requires_values.1 "F" "D" _ (by simp)
  · exact c3_finalize_requires_values.2 "F" "D"
      { secType := none, country := none, pendingNameParts := ["Acme"],
        pendingShares := some (.fin 5), pendingValue := some (.fin 7), pendingCountry := none }
      { fund_name := "F", report_date := "D", security_name := "Acme",
        security_type := none, country_iso3 := none, sector := none,
        shares := some (.fin 5), principal := none, market_value := some (.fin 7) }
      (by decide)

/-! ## Claim C4: single-line token-count requirement -/

/-- C4: in single-line mode, a line in which the numeric tokenizer finds at
most `max(shares_token_index, value_token_index)` tokens — in particular any
line with no numeric token — never emits a Holding, whatever else it is
classified as. -/
theorem c4_token_count_requirement
    (cfg : LayoutConfig) (fund date : String) (ty co : Option String) (rawLine : String)
    (hlen : (_parse_numeric_tokens (String.mk (stripWs rawLine.data))).length ≤
      max cfg.shares_token_index cfg.value_token_index) :
    slEmitted (slStep cfg fund date ty co rawLine) = none := by
  unfold slStep
  dsimp only
  repeat' split
  all_goals rfl

/-- Witness for C4: the letters-and-single-number line "Schedule 7" has one
numeric token, at most `max 0 1`, and emits nothing. -/
theorem c4_token_count_requirement_witness :
    slEmitted (slStep cfgC1 "F" "D" none none "Schedule 7") = none :=
  c4_token_count_requirement cfgC1 "F" "D" none none "Schedule 7" (by decide)

/-! ## Claim C9: validator per-row numeric rules -/

/-- The single-row holding of the C9 scenario: non-empty fund and security
names, the three numeric fields free. -/
def c9Holding (s p m : Option PyFloat) : Holding :=
  { fund_name := "Fund A", report_date := "2024-12-31", security_name := "Acme Corp",
    security_type := none, country_iso3 := none, sector := none,
    shares := s, principal := p, market_value := m }

/-- `isPrefixCl x (x ++ b)` always holds. -/
theorem isPrefixCl_append_self (x b : List Char) : isPrefixCl x (x ++ b) = true := by
  induction x with
  | nil => rfl
  | cons c cs ih => simpa [isPrefixCl] using ih

/-- A substring of the right part of an append is a substring of the whole. -/
theorem containsCl_append_of_containsCl (a rest n : List Char)
    (h : containsCl rest n = true) : containsCl (a ++ rest) n = true := by
  induction a with
  | nil => simpa using h
  | cons c cs ih => simpa [containsCl] using Or.inr ih

/-- The middle factor of a three-part append is a substring of the whole. -/
theorem containsCl_middle (a x b : List Char) :
    containsCl (a ++ (x ++ b)) x = true := by
  apply containsCl_append_of_containsCl
  cases x with
  | nil => cases b <;> simp [containsCl, isPrefixCl, List.isEmpty]
  | cons c cs =>
    have := isPrefixCl_append_self (c :: cs) b
    simp [containsCl]
    exact Or.inl (by simpa using this)

/-- A negative-field error message does mention the rendered value. -/
theorem negMsg_mentions_value (ctx fieldLabel : String) (v : PyFloat) :
    containsCl (negMsg ctx fieldLabel v).data (pyFloatRepr v).data = true := by
  have : (negMsg ctx fieldLabel v).data =
      (ctx ++ " " ++ fieldLabel ++ " is negative (").data ++
        ((pyFloatRepr v).data ++
          "); long-only mutual funds should not have negative amounts.".data) := by
    simp [negMsg]
  rw [this]
  exact containsCl_middle _ _ _

/-- C9: for the single-row list with non-empty names, a negative value in
any of shares, principal or market value puts the corresponding
negative-value error (which mentions the rendered value) among the errors;
with all three numeric fields null the row gets the no-numeric-value warning
and the error list is empty. -/
theorem c9_validator_rules :
    (∀ q : ℚ, q < 0 →
      negMsg (rowCtx 0) "shares" (.fin q) ∈
        (validate_holdings [c9Holding (some (.fin q)) none none]).1 ∧
      containsCl (negMsg (rowCtx 0) "shares" (.fin q)).data
        (pyFloatRepr (.fin q)).data = true) ∧
    (∀ q : ℚ, q < 0 →
      negMsg (rowCtx 0) "principal" (.fin q) ∈
        (validate_holdings [c9Holding none (some (.fin q)) none]).1) ∧
    (∀ q : ℚ, q < 0 →
      negMsg (rowCtx 0) "market_value" (.fin q) ∈
        (validate_holdings [c9Holding none none (some (.fin q))]).1) ∧
    ((rowCtx 0 ++ " no numeric value present (shares, principal, or market_value).") ∈
        (validate_holdings [c9Holding none none none]).2 ∧
      (validate_holdings [c9Holding none none none]).1 = []) := by
  have hmain : ∀ q : ℚ, q < 0 → pyNeg (.fin q) = true := by
    intro q hq
    simp [pyNeg, hq]
  refine ⟨fun q hq => ⟨?_, negMsg_mentions_value _ _ _⟩, fun q hq => ?_, fun q hq => ?_, by decide⟩ <;>
    simp [validate_holdings, c9Holding, rowErrors, negFieldErr, List.enum,
      List.enumFrom, hmain q hq]

/-- Witness for C9 at the concrete values the specification names. -/
theorem c9_validator_rules_witness :
    negMsg (rowCtx 0) "shares" (.fin (-100)) ∈
      (validate_holdings [c9Holding (some (.fin (-100))) none none]).1 ∧
    negMsg (rowCtx 0) "market_value" (.fin (-3)) ∈
      (validate_holdings [c9Holding none none (some (.fin (-3)))]).1 :=
  ⟨(c9_validator_rules.1 (-100) (by norm_num)).1,
    c9_validator_rules.2.2.1 (-3) (by norm_num)⟩

/-! ## Claim C7: numeric parsing never fails fatally -/

/-- The ten decimal digit characters. -/
def digitChars : List Char := ['0', '1', '2', '3', '4', '5', '6', '7', '8', '9']

/-- Decimal digits are digits in the `[0-9]` sense. -/
theorem digit_isDigitC : ∀ c ∈ digitChars, isDigitC c = true := by decide

/-- Decimal digits are not whitespace. -/
theorem digit_not_ws : ∀ c ∈ digitChars, isWsPy c = false := by decide

/-- Lower-casing leaves decimal digits unchanged. -/
theorem digit_asciiLower : ∀ c ∈ digitChars, asciiLower c = c := by decide

/-- Decimal digits survive every filter of the cleaning pipeline and
satisfy the digit-part `takeWhile` predicate. -/
theorem digit_filters : ∀ c ∈ digitChars,
    (!(c = ',' : Bool)) = true ∧ (!(c = '$' : Bool)) = true ∧
    (!(c = '*' ∨ c = '†' ∨ c = '‡' : Bool)) = true ∧
    (!(c = '_' : Bool)) = true ∧
    ((isDigitC c ∨ c = '_' : Bool)) = true := by decide

/-- Decimal digits are distinct from the special characters the float
parser branches on. -/
theorem digit_ne_specials : ∀ c ∈ digitChars,
    c ≠ '+' ∧ c ≠ '-' ∧ c ≠ '—' ∧ c ≠ '_' ∧ c ≠ 'i' ∧ c ≠ 'n' := by decide

/-- `dropWhile isWsPy` is the identity on whitespace-free lists. -/
theorem dropWhile_isWsPy_eq_self {l : List Char}
    (h : ∀ c ∈ l, isWsPy c = false) : l.dropWhile isWsPy = l := by
  cases l with
  | nil => rfl
  | cons c cs => simp [List.dropWhile_cons, h c (by simp)]

/-- `stripWs` is the identity on whitespace-free lists. -/
theorem stripWs_eq_self {l : List Char}
    (h : ∀ c ∈ l, isWsPy c = false) : stripWs l = l := by
  unfold stripWs
  rw [dropWhile_isWsPy_eq_self h,
    dropWhile_isWsPy_eq_self (fun c hc => h c (List.mem_reverse.mp hc)),
    List.reverse_reverse]

/-- A digit tail is a valid float digit-part tail. -/
theorem digitTailOk_of_digits {l : List Char}
    (h : ∀ c ∈ l, c ∈ digitChars) : digitTailOk l = true := by
  induction l with
  | nil => rfl
  | cons c cs ih =>
    have hmem := h c (by simp)
    rw [digitTailOk.eq_def]
    dsimp only
    rw [if_neg (digit_ne_specials c hmem).2.2.2.1]
    simp [digit_isDigitC c hmem,
      ih (fun d (hd : d ∈ cs) => h d (List.mem_cons_of_mem c hd))]

/-- C7 counterexample: `_parse_number "inf"` is Python's `float("inf")`,
positive infinity — a value, not `None` — even though "inf" is not a
decimal numeral. -/
theorem c7_parse_number_counterexample :
    _parse_number "inf" = some PyFloat.inf ∧ _parse_number "inf" ≠ none := by
  decide

/-- C7 amended: `_parse_number` is total with `Option` result; it yields
`none` exactly when the cleaned string is empty, a lone dash/em-dash
sentinel, or rejected by Python's `float()` syntax (which besides decimal
numerals also accepts scientific notation and the infinity/NaN spellings,
as the counterexample shows); and a non-empty string of decimal digits — the
decimal numerals the extractor feeds it — yields its numeric value. -/
theorem c7_parse_number_total :
    (∀ s : String, _parse_number s = none ↔
      (cleanNumeric s = [] ∨ cleanNumeric s = ['-'] ∨ cleanNumeric s = ['—'] ∨
        pyFloatOfChars (cleanNumeric s) = none)) ∧
    (∀ l : List Char, l ≠ [] → (∀ c ∈ l, c ∈ digitChars) →
      _parse_number (String.mk l) = some (.fin (digitsToNat l : ℚ))) := by
  constructor
  · intro s
    unfold _parse_number
    dsimp only
    by_cases hg : cleanNumeric s = [] ∨ cleanNumeric s = ['-'] ∨ cleanNumeric s = ['—']
    · simp [hg]
      tauto
    · rw [if_neg hg]
      push_neg at hg
      simp [hg.1, hg.2.1, hg.2.2]
  · intro l hne hdig
    have hnws : ∀ c ∈ l, isWsPy c = false := fun c hc => digit_not_ws c (hdig c hc)
    have hclean : cleanNumeric (String.mk l) = l := by
      unfold cleanNumeric
      rw [List.filter_eq_self.mpr (fun c hc => (digit_filters c (hdig c hc)).1)]
      rw [List.filter_eq_self.mpr (fun c hc => (digit_filters c (hdig c hc)).2.1)]
      rw [stripWs_eq_self hnws]
      exact List.filter_eq_self.mpr (fun c hc => (digit_filters c (hdig c hc)).2.2.1)
    obtain ⟨c, cs, rfl⟩ := List.exists_cons_of_ne_nil hne
    have hmem : c ∈ digitChars := hdig c (by simp)
    have hsp := digit_ne_specials c hmem
    have hguard : ¬(c :: cs = [] ∨ c :: cs = ['-'] ∨ c :: cs = ['—']) := by
      rintro (h | h | h)
      · exact absurd h (by simp)
      · simp only [List.cons.injEq] at h
        exact hsp.2.1 h.1
      · simp only [List.cons.injEq] at h
        exact hsp.2.2.1 h.1
    have hlow : (c :: cs).map asciiLower = c :: cs := by
      have : ∀ x ∈ c :: cs, asciiLower x = x :=
        fun x hx => digit_asciiLower x (hdig x hx)
      calc (c :: cs).map asciiLower = (c :: cs).map id := List.map_congr_left this
        _ = c :: cs := List.map_id _
    have hvalid : validDigitPart (c :: cs) = true := by
      rw [validDigitPart]
      simp [digit_isDigitC c hmem,
        digitTailOk_of_digits (fun d (hd : d ∈ cs) => hdig d (List.mem_cons_of_mem c hd))]
    have htake : takeDigitUnd (c :: cs) = c :: cs := by
      unfold takeDigitUnd
      exact List.takeWhile_eq_self_iff.mpr
        (fun x hx => (digit_filters x (hdig x hx)).2.2.2.2)
    have hnum : parsePyNumber (c :: cs) = some (ratValOf (c :: cs) [] 0) := by
      unfold parsePyNumber
      rw [htake]
      dsimp only
      rw [List.drop_length]
      rw [if_neg (by simp [hvalid])]
      rfl
    have hval : ratValOf (c :: cs) [] 0 = (digitsToNat (c :: cs) : ℚ) := by
      unfold ratValOf
      rw [List.filter_eq_self.mpr (fun x hx => (digit_filters x (hdig x hx)).2.2.2.1)]
      norm_num [digitsToNat, Rat.mkRat_one]
    have hbody : parseFloatBody (c :: cs) false = some (.fin (digitsToNat (c :: cs) : ℚ)) := by
      unfold parseFloatBody
      dsimp only
      rw [hlow]
      rw [if_neg ?hinf, if_neg ?hnan]
      case hinf =>
        rintro (h | h) <;> exact hsp.2.2.2.2.1 (by simpa using congrArg List.head? h)
      case hnan =>
        intro h
        exact hsp.2.2.2.2.2 (by simpa using congrArg List.head? h)
      rw [hnum, hval]
      rfl
    unfold _parse_number
    dsimp only
    rw [hclean, if_neg hguard]
    unfold pyFloatOfChars
    rw [stripWs_eq_self hnws]
    dsimp only
    rw [if_neg hsp.1, if_neg hsp.2.1]
    exact hbody

/-- Witness for C7: the decomposition at the non-numeric string "x" and the
digit-string value at "42". -/
theorem c7_parse_number_total_witness :
    (_parse_number "x" = none ↔
      (cleanNumeric "x" = [] ∨ cleanNumeric "x" = ['-'] ∨ cleanNumeric "x" = ['—'] ∨
        pyFloatOfChars (cleanNumeric "x") = none)) ∧
    _parse_number (String.mk ['4', '2']) = some (.fin (digitsToNat ['4', '2'] : ℚ)) :=
  ⟨c7_parse_number_total.1 "x",
    c7_parse_number_total.2 ['4', '2'] (by decide) (by decide)⟩

/-! ## Claim C10: idempotence of the Name Normalizer

The proof tracks three adjacency invariants — no remaining capital-insertion
boundary, no remaining comma boundary, no two adjacent whitespace
characters — each established by its pass and preserved by the later
passes, plus whitespace-free endpoints established by the final strip. -/

/-- No capital-insertion boundary remains between adjacent characters. -/
def capOk (l : List Char) : Prop := l.Chain' (fun a b => capBoundary a b = false)

/-- No comma boundary remains between adjacent characters. -/
def commaOk (l : List Char) : Prop := l.Chain' (fun a b => commaBoundary a b = false)

/-- No two adjacent whitespace characters remain. -/
def noDblWs (l : List Char) : Prop := l.Chain' (fun a b => wsPair a b = false)

/-- A whitespace left-hand character defeats the capital boundary. -/
theorem capBoundary_of_ws_left {a : Char} (h : isWsPy a = true) (b : Char) :
    capBoundary a b = false := by simp [capBoundary, h]

/-- A non-uppercase right-hand character defeats the capital boundary. -/
theorem capBoundary_of_not_upper {b : Char} (h : isUpperAZ b = false) (a : Char) :
    capBoundary a b = false := by simp [capBoundary, h]

/-- A space never opens a comma boundary. -/
theorem commaBoundary_space_left (b : Char) : commaBoundary ' ' b = false := by
  simp [commaBoundary]

/-- A space never closes a comma boundary. -/
theorem commaBoundary_space_right (a : Char) : commaBoundary a ' ' = false := by
  simp [commaBoundary, isAsciiLetter]

/-- `insertCaps` keeps the head character. -/
theorem insertCaps_head (a : Char) (l : List Char) :
    (insertCaps (a :: l)).head? = some a := by
  cases l with
  | nil => rfl
  | cons b bs =>
    rw [insertCaps]
    split <;> rfl

/-- `commaSpace` keeps the head character. -/
theorem commaSpace_head (a : Char) (l : List Char) :
    (commaSpace (a :: l)).head? = some a := by
  cases l with
  | nil => rfl
  | cons b bs =>
    rw [commaSpace]
    split <;> rfl

/-- After `insertCaps`, no capital-insertion boundary remains. -/
theorem capOk_insertCaps (l : List Char) : capOk (insertCaps l) := by
  induction l using insertCaps.induct with
  | case1 => exact List.chain'_nil
  | case2 c => exact List.chain'_singleton c
  | case3 a b rest hb ih =>
    rw [insertCaps, if_pos hb]
    rw [capOk, List.chain'_cons']
    refine ⟨fun y hy => by simp at hy; subst hy; exact capBoundary_of_not_upper (by decide) a, ?_⟩
    rw [List.chain'_cons']
    refine ⟨fun y hy => ?_, ih⟩
    rw [insertCaps_head b rest] at hy
    simp at hy
    subst hy
    exact capBoundary_of_ws_left (by decide) b
  | case4 a b rest hb ih =>
    rw [insertCaps, if_neg hb]
    rw [capOk, List.chain'_cons']
    refine ⟨fun y hy => ?_, ih⟩
    rw [insertCaps_head b rest] at hy
    simp at hy
    subst hy
    simpa using hb

/-- `insertCaps` does nothing when no boundary remains. -/
theorem insertCaps_eq_self {l : List Char} (h : capOk l) : insertCaps l = l := by
  induction l with
  | nil => rfl
  | cons a rest ih =>
    cases rest with
    | nil => rfl
    | cons b bs =>
      rw [capOk, List.chain'_cons'] at h
      have hab : capBoundary a b = false := by simpa using h.1 b (by simp)
      rw [insertCaps, if_neg (by simp [hab])]
      rw [ih h.2]

/-- After `commaSpace`, no comma boundary remains. -/
theorem commaOk_commaSpace (l : List Char) : commaOk (commaSpace l) := by
  induction l using commaSpace.induct with
  | case1 => exact List.chain'_nil
  | case2 c => exact List.chain'_singleton c
  | case3 a b rest hb ih =>
    rw [commaSpace, if_pos hb]
    rw [commaOk, List.chain'_cons']
    refine ⟨fun y hy => by simp at hy; subst hy; exact commaBoundary_space_right a, ?_⟩
    rw [List.chain'_cons']
    refine ⟨fun y hy => ?_, ih⟩
    rw [commaSpace_head b rest] at hy
    simp at hy
    subst hy
    exact commaBoundary_space_left b
  | case4 a b rest hb ih =>
    rw [commaSpace, if_neg hb]
    rw [commaOk, List.chain'_cons']
    refine ⟨fun y hy => ?_, ih⟩
    rw [commaSpace_head b rest] at hy
    simp at hy
    subst hy
    simpa using hb

/-- `commaSpace` does nothing when no comma boundary remains. -/
theorem commaSpace_eq_self {l : List Char} (h : commaOk l) : commaSpace l = l := by
  induction l with
  | nil => rfl
  | cons a rest ih =>
    cases rest with
    | nil => rfl
    | cons b bs =>
      rw [commaOk, List.chain'_cons'] at h
      have hab : commaBoundary a b = false := by simpa using h.1 b (by simp)
      rw [commaSpace, if_neg (by simp [hab])]
      rw [ih h.2]

/-- `commaSpace` preserves the absence of capital boundaries: it only
inserts spaces, which open no boundary and close none. -/
theorem capOk_commaSpace_of_capOk {l : List Char} (h : capOk l) :
    capOk (commaSpace l) := by
  induction l using commaSpace.induct with
  | case1 => exact List.chain'_nil
  | case2 c => exact List.chain'_singleton c
  | case3 a b rest hb ih =>
    rw [capOk, List.chain'_cons'] at h
    rw [commaSpace, if_pos hb]
    rw [capOk, List.chain'_cons']
    refine ⟨fun y hy => ?_, ?_⟩
    · simp at hy
      subst hy
      exact capBoundary_of_not_upper (by decide) a
    rw [List.chain'_cons']
    refine ⟨fun y hy => ?_, ih h.2⟩
    rw [commaSpace_head b rest] at hy
    simp at hy
    subst hy
    exact capBoundary_of_ws_left (by decide) b
  | case4 a b rest hb ih =>
    rw [capOk, List.chain'_cons'] at h
    rw [commaSpace, if_neg hb]
    rw [capOk, List.chain'_cons']
    refine ⟨fun y hy => ?_, ih h.2⟩
    rw [commaSpace_head b rest] at hy
    simp at hy
    subst hy
    simpa using h.1 b (by simp)

/-- The head of a collapsed non-empty list is the original head, or the
space that replaced a whitespace run starting at the head. -/
theorem collapseWsGo_head (f : Nat) (c : Char) (l : List Char) :
    (collapseWsGo f (c :: l)).head? = some c ∨
    ((collapseWsGo f (c :: l)).head? = some ' ' ∧ isWsPy c = true) := by
  induction f generalizing c l with
  | zero => exact Or.inl rfl
  | succ f ih =>
    cases l with
    | nil => exact Or.inl rfl
    | cons b bs =>
      rw [collapseWsGo]
      by_cases h : wsPair c b = true
      · rw [if_pos h]
        have hc : isWsPy c = true := by
          have := h
          simp [wsPair] at this
          exact this.1
        rcases ih ' ' bs with h1 | h1
        · exact Or.inr ⟨h1, hc⟩
        · exact Or.inr ⟨h1.1, hc⟩
      · rw [if_neg h]
        exact Or.inl rfl

/-- `collapseWsGo` does nothing when no two adjacent whitespace characters
remain. -/
theorem collapseWsGo_eq_self {l : List Char} (h : noDblWs l) (f : Nat) :
    collapseWsGo f l = l := by
  induction f generalizing l with
  | zero => rfl
  | succ f ih =>
    cases l with
    | nil => rfl
    | cons a rest =>
      cases rest with
      | nil => rfl
      | cons b bs =>
        rw [noDblWs, List.chain'_cons'] at h
        have hab : wsPair a b = false := by simpa using h.1 b (by simp)
        rw [collapseWsGo, if_neg (by simp [hab])]
        rw [ih h.2]

/-- With enough fuel (the list length), collapsing leaves no two adjacent
whitespace characters. -/
theorem noDblWs_collapseWsGo : ∀ (f : Nat) (l : List Char), l.length ≤ f →
    noDblWs (collapseWsGo f l) := by
  intro f
  induction f with
  | zero =>
    intro l hl
    rw [List.length_eq_zero.mp (Nat.le_zero.mp hl)]
    exact List.chain'_nil
  | succ f ih =>
    intro l hl
    cases l with
    | nil => exact List.chain'_nil
    | cons a rest =>
      cases rest with
      | nil => exact List.chain'_singleton a
      | cons b bs =>
        rw [collapseWsGo]
        by_cases h : wsPair a b = true
        · rw [if_pos h]
          exact ih (' ' :: bs) (by simp at hl ⊢; omega)
        · rw [if_neg h]
          have htail := ih (b :: bs) (by simp at hl ⊢; omega)
          rw [noDblWs, List.chain'_cons']
          refine ⟨fun y hy => ?_, htail⟩
          rcases collapseWsGo_head f b bs with h1 | h1
          · rw [h1] at hy
            simp at hy
            subst hy
            simpa using h
          · rw [h1.1] at hy
            simp at hy
            subst hy
            have hwa : isWsPy a = false := by
              have hb := h1.2
              simp [wsPair, hb] at h
              simpa using h
            simp [wsPair, hwa]

/-- Collapsing whitespace runs preserves any adjacency invariant that a
space can neither open nor close. -/
theorem chain_collapseWsGo {R : Char → Char → Bool}
    (hL : ∀ b, R ' ' b = false) (hRt : ∀ a, R a ' ' = false) :
    ∀ (f : Nat) (l : List Char), l.Chain' (fun a b => R a b = false) →
      (collapseWsGo f l).Chain' (fun a b => R a b = false) := by
  intro f
  induction f with
  | zero => exact fun l h => h
  | succ f ih =>
    intro l h
    cases l with
    | nil => exact h
    | cons a rest =>
      cases rest with
      | nil => exact h
      | cons b bs =>
        rw [collapseWsGo]
        rw [List.chain'_cons'] at h
        by_cases hws : wsPair a b = true
        · rw [if_pos hws]
          apply ih
          rw [List.chain'_cons']
          exact ⟨fun y _ => hL y, (List.chain'_cons'.mp h.2).2⟩
        · rw [if_neg hws]
          rw [List.chain'_cons']
          refine ⟨fun y hy => ?_, ih _ h.2⟩
          rcases collapseWsGo_head f b bs with h1 | h1
          · rw [h1] at hy
            simp at hy
            subst hy
            simpa using h.1 b (by simp)
          · rw [h1.1] at hy
            simp at hy
            subst hy
            exact hRt a

/-- The stripped list is an infix of the original, so every adjacency
invariant survives stripping. -/
theorem stripWs_infix_self (l : List Char) : stripWs l <:+: l := by
  unfold stripWs
  have h1 : l.dropWhile isWsPy <:+ l := List.dropWhile_suffix _
  have h2 : (l.dropWhile isWsPy).reverse.dropWhile isWsPy <:+
      (l.dropWhile isWsPy).reverse := List.dropWhile_suffix _
  have h3 : ((l.dropWhile isWsPy).reverse.dropWhile isWsPy).reverse <+:
      l.dropWhile isWsPy := by
    rw [← List.reverse_suffix, List.reverse_reverse]
    exact h2
  exact h3.isInfix.trans h1.isInfix

/-- `dropWhile` is the identity when the head does not satisfy the
predicate. -/
theorem dropWhile_eq_self_of_head {p : Char → Bool} {l : List Char}
    (h : ∀ c ∈ l.head?, p c = false) : l.dropWhile p = l := by
  cases l with
  | nil => rfl
  | cons a rest => simp [List.dropWhile_cons, h a rfl]

/-- The last character of a stripped list is not whitespace. -/
theorem getLast?_stripWs_not_ws (l : List Char) :
    ∀ c ∈ (stripWs l).getLast?, isWsPy c = false := by
  intro c hc
  unfold stripWs at hc
  rw [List.getLast?_reverse] at hc
  have hh := List.head?_dropWhile_not isWsPy (l.dropWhile isWsPy).reverse
  rw [Option.mem_def] at hc
  rw [hc] at hh
  exact hh

/-- The head character of a stripped list is not whitespace. -/
theorem head?_stripWs_not_ws (l : List Char) :
    ∀ c ∈ (stripWs l).head?, isWsPy c = false := by
  intro c hc
  unfold stripWs at hc
  rw [List.head?_reverse] at hc
  rw [Option.mem_def] at hc
  obtain ⟨t, ht⟩ := List.dropWhile_suffix (l := (l.dropWhile isWsPy).reverse) isWsPy
  have hgl := congrArg List.getLast? ht
  rw [List.getLast?_append, hc, Option.or_some, List.getLast?_reverse] at hgl
  have hh := List.head?_dropWhile_not isWsPy l
  rw [← hgl] at hh
  exact hh

/-- `stripWs` is the identity on lists with whitespace-free endpoints. -/
theorem stripWs_eq_self_of_ends {l : List Char}
    (h1 : ∀ c ∈ l.head?, isWsPy c = false)
    (h2 : ∀ c ∈ l.getLast?, isWsPy c = false) : stripWs l = l := by
  unfold stripWs
  rw [dropWhile_eq_self_of_head h1]
  rw [dropWhile_eq_self_of_head (by simpa using h2)]
  exact List.reverse_reverse l

/-- Stripping is idempotent. -/
theorem stripWs_idem (l : List Char) : stripWs (stripWs l) = stripWs l :=
  stripWs_eq_self_of_ends (head?_stripWs_not_ws l) (getLast?_stripWs_not_ws l)

/-- C10 (implicit): the Name Normalizer is idempotent — normalizing an
already-normalized name changes nothing.  After one pass no
capital-insertion boundary, comma boundary or whitespace pair remains and
the endpoints are whitespace-free, so every pass of the second application
is the identity. -/
theorem c10_normalize_idempotent (s : String) :
    _normalize_name (_normalize_name s) = _normalize_name s := by
  unfold _normalize_name collapseWs
  show String.mk (stripWs (collapseWsGo _ (commaSpace (insertCaps
    (stripWs (collapseWsGo _ (commaSpace (insertCaps s.data)))))))) = _
  set N := stripWs (collapseWsGo (commaSpace (insertCaps s.data)).length
    (commaSpace (insertCaps s.data))) with hN
  have hcap : capOk N := by
    apply List.Chain'.infix _ (stripWs_infix_self _)
    exact chain_collapseWsGo (fun b => capBoundary_of_ws_left (by decide) b)
      (fun a => capBoundary_of_not_upper (by decide) a) _ _
      (capOk_commaSpace_of_capOk (capOk_insertCaps _))
  have hcom : commaOk N := by
    apply List.Chain'.infix _ (stripWs_infix_self _)
    exact chain_collapseWsGo commaBoundary_space_left commaBoundary_space_right _ _
      (commaOk_commaSpace _)
  have hdbl : noDblWs N := by
    apply List.Chain'.infix _ (stripWs_infix_self _)
    exact noDblWs_collapseWsGo _ _ (Nat.le_refl _)
  rw [insertCaps_eq_self hcap, commaSpace_eq_self hcom,
    collapseWsGo_eq_self hdbl, hN, stripWs_idem]

/-- Witness for C10 at a concrete name. -/
theorem c10_normalize_idempotent_witness :
    _normalize_name (_normalize_name "AssaAbloyAB,ClassB") =
      _normalize_name "AssaAbloyAB,ClassB" :=
  c10_normalize_idempotent "AssaAbloyAB,ClassB"

end FundExtractor











